/-
Verification of the tree-combination and tree-indexing core of the CTcue
data-collector query builder.

The development shallowly embeds the two source files:
  * `cdc.service.ts` (the variant returning the collected-children map):
    namespace `CDC` below — `getDataCollectorQuery`, `buildQueryTree`,
    `walkTree`, `addOneToMultiMap`.
  * the `QueryTreeContainer` class: namespace `QTC` below — `indexTree`
    and the read operations.

TypeScript `Map` objects are embedded as insertion-ordered association
lists (`List (String × α)`); `Map.get`/`Map.set`/`Map.has` become
`lookupMap`/`assocSet`/`containsKey`.  Object back-references of which the
source only ever reads `.id` (`query.parent`, `query.answer`,
`answer.question`) are embedded as the referenced id (`Option String`).
Truthiness tests of the source are embedded pointwise: a string is truthy
iff non-empty, an object iff present, and a member of the numeric enum
`SearchCategoryType` iff it is not the zero-valued first member
(`Demographic`).  The recursion of `walkTree` over the parent-id multimap
is embedded with an explicit depth budget (`fuel`); the driver passes a
budget that is sufficient for every acyclic input, on which the embedding
agrees with the source.
-/
import Mathlib

/-- Lookup in an insertion-ordered association list (TS `Map.get`). -/
def lookupMap {α : Type} : List (String × α) → String → Option α
  | [], _ => none
  | p :: rest, k => if p.1 = k then some p.2 else lookupMap rest k

/-- Key-membership test (TS `Map.has`). -/
def containsKey {α : Type} (m : List (String × α)) (k : String) : Bool :=
  (lookupMap m k).isSome

/-- Insert-or-overwrite (TS `Map.set`): replaces the first entry with the
given key in place, otherwise appends a new entry at the end. -/
def assocSet {α : Type} : List (String × α) → String → α → List (String × α)
  | [], k, v => [(k, v)]
  | p :: rest, k, v => if p.1 = k then (k, v) :: rest else p :: assocSet rest k v

/-- The `addOneToMultiMap` helper of the source: push onto the existing
value list if the key is present, otherwise create a one-element list. -/
def addOneToMultiMap {α : Type} : List (String × List α) → String → α → List (String × List α)
  | [], k, v => [(k, [v])]
  | p :: rest, k, v =>
    if p.1 = k then (p.1, p.2 ++ [v]) :: rest else p :: addOneToMultiMap rest k v

/-- Multimap lookup with default empty list (TS `tree.get(id) ?? []`). -/
def lookupMulti {α : Type} (m : List (String × List α)) (k : String) : List α :=
  (lookupMap m k).getD []

/-- All values stored in a multimap, in entry order. -/
def multiValues {α : Type} : List (String × List α) → List α
  | [] => []
  | p :: rest => p.2 ++ multiValues rest

/-- All values stored in a map, in entry order. -/
def mapValues {α : Type} (m : List (String × α)) : List α :=
  m.map (fun p => p.2)

namespace CDC

/-- The `SearchCategoryType` numeric enum of `cdc.service.ts`; its first
member `Demographic` has the numeric value 0 and is therefore falsy. -/
inductive SearchCategoryType where
  | Demographic
  | Appointment
  | Measurement
  | Procedure
deriving DecidableEq, Repr

inductive QuestionType where
  | SingleAnswer
  | MultipleChoiceSingleAnswer
  | Repeated
deriving DecidableEq, Repr

/-- The `QueryMatchType` enum (`Any`, `All`, `None`, `NoneAll`). -/
inductive QueryMatchType where
  | Any
  | All
  | None
  | NoneAll
deriving DecidableEq, Repr

inductive SortDirection where
  | Ascending
  | Descending
deriving DecidableEq, Repr

structure Section where
  id : String
deriving DecidableEq, Repr

structure Question where
  id : String
  disabled : Bool
  questionType : QuestionType
  sortDirection : SortDirection
deriving DecidableEq, Repr

/-- A criteria node as returned (flat) by the repository.  `parent` and
`answer` are the back-references, of which the source only reads `.id`,
embedded as the referenced id.  The `match` field of the source is named
`matchType` (`match` is reserved).  `category` and `sortDirection` are
optional: the source creates `Query` instances without assigning them.
The `groups` field of the source is not part of this record: the tree
shape is always reassigned from the parent-id multimap during the walk,
and the walk result is returned as a separate `QTree` value. -/
structure Query where
  id : String
  disabled : Bool
  collect : Bool
  parent : Option String
  answer : Option String
  category : Option SearchCategoryType
  matchType : QueryMatchType
  sortDirection : Option SortDirection
deriving DecidableEq, Repr

structure Answer where
  id : String
  hidden : Bool
  question : Option String
  query : Option Query
deriving DecidableEq, Repr

/-- Truthiness of `query.category` in the source: the field must be
assigned and must not be the zero-valued enum member `Demographic`. -/
def categoryTruthy : Option SearchCategoryType → Bool
  | none => false
  | some c => c ≠ SearchCategoryType.Demographic

/-- Truthiness of `term.parent?.id` in `buildQueryTree`: a parent
reference exists and carries a non-empty id. -/
def parentResolvable (t : Query) : Bool :=
  match t.parent with
  | some pid => pid ≠ ""
  | none => false

/-- The combined query tree produced by the walk: a node value together
with the children the walk assigned to its `groups` field. -/
inductive QTree where
  | node (val : Query) (children : List QTree)

def QTree.val : QTree → Query
  | .node v _ => v

def QTree.children : QTree → List QTree
  | .node _ cs => cs

mutual
/-- All subtrees of a combined tree, the tree itself included (pre-order). -/
def QTree.subtrees : QTree → List QTree
  | .node v cs => .node v cs :: subtreesList cs

def subtreesList : List QTree → List QTree
  | [] => []
  | t :: ts => QTree.subtrees t ++ subtreesList ts
end

/-- The three index maps threaded through `walkTree`. -/
structure WalkState where
  termToAnswerMap : List (String × Answer)
  answerToTermsMap : List (String × List Query)
  collectedChildrenMap : List (String × Bool)
deriving DecidableEq, Repr

def emptyWalkState : WalkState := ⟨[], [], []⟩

/-- Loop body of `buildQueryTree`: skip nodes without a resolvable parent
id, otherwise record the node in the id map and under its parent id in
the children multimap. -/
def buildQueryTreeGo : List Query → List (String × List Query) → List (String × Query) →
    List (String × List Query) × List (String × Query)
  | [], tree, termMap => (tree, termMap)
  | t :: rest, tree, termMap =>
    match t.parent with
    | none => buildQueryTreeGo rest tree termMap
    | some pid =>
      if pid = "" then buildQueryTreeGo rest tree termMap
      else buildQueryTreeGo rest (addOneToMultiMap tree pid t) (assocSet termMap t.id t)

/-- The `buildQueryTree` function of the source: parent-id → children multimap plus
id → node map over the flat descendant list. -/
def buildQueryTree (terms : List Query) : List (String × List Query) × List (String × Query) :=
  buildQueryTreeGo terms [] []

/-- One step of the root-set computation (`answers.map(...)` in the
source): a hidden answer with a question reference contributes its query
only when the question resolves to type `MultipleChoiceSingleAnswer`;
every other answer contributes its query (possibly absent). -/
def selectRoot (questionMap : List (String × Question)) (answer : Answer) : Option Query :=
  match answer.question, answer.hidden with
  | some qid, true =>
    if (lookupMap questionMap qid).map Question.questionType ≠
        some QuestionType.MultipleChoiceSingleAnswer then
      none
    else
      answer.query
  | _, _ => answer.query

/-- The `answers` list of the source: the values of the answer map. -/
def answersOf (answerMap : List (String × Answer)) : List Answer :=
  mapValues answerMap

/-- The root set (`rootQueries`): map each answer through `selectRoot`
and keep the present results (`filter(Boolean)`). -/
def rootQueriesOf (questionMap : List (String × Question))
    (answerMap : List (String × Answer)) : List Query :=
  (answersOf answerMap).filterMap (selectRoot questionMap)

/-- Child loop of `walkTree`: a disabled child is kept in the rebuilt
`groups` list untouched (`continue`), every other child is walked. -/
def walkSubQueries (f : Query → WalkState → QTree × WalkState) :
    List Query → WalkState → List QTree × WalkState
  | [], st => ([], st)
  | c :: rest, st =>
    if c.disabled then
      let tail := walkSubQueries f rest st
      (QTree.node c [] :: tail.1, tail.2)
    else
      let head := f c st
      let tail := walkSubQueries f rest head.2
      (head.1 :: tail.1, tail.2)

/-- Recursive walk of the source (`walkTree`): overwrite the node's
`sortDirection` with the question's, register the node in the two
term/answer indexes, reassign its children from the multimap, stop on a
disabled or childless node, recurse into non-disabled children (disabled
children stay in the `groups` list untouched), and finally record the
collected-children flag when the node's category is truthy.  `fuel`
bounds the recursion depth; every call processes its own node in full and
truncation can only cut the recursion into children, which never happens
when the budget is at least the multimap size (the source diverges on
cyclic inputs, where the budget would run out). -/
def walkTree (a : Answer) (q : Question) (tree : List (String × List Query)) :
    Nat → Query → WalkState → QTree × WalkState
  | fuel, term, st =>
    let updated := { term with sortDirection := some q.sortDirection }
    let st1 : WalkState :=
      { st with
        termToAnswerMap := assocSet st.termToAnswerMap term.id a
        answerToTermsMap := addOneToMultiMap st.answerToTermsMap a.id updated }
    let children := lookupMulti tree term.id
    if term.disabled || children.isEmpty then
      (QTree.node updated (children.map fun c => QTree.node c []), st1)
    else
      let sub :=
        match fuel with
        | 0 => (children.map fun c => QTree.node c [], st1)
        | fuel' + 1 => walkSubQueries (walkTree a q tree fuel') children st1
      let st3 :=
        if categoryTruthy term.category then
          { sub.2 with
            collectedChildrenMap :=
              assocSet sub.2.collectedChildrenMap term.id
                (children.any fun c => c.collect) }
        else sub.2
      (QTree.node updated sub.1, st3)

/-- Resolution, in the root loop, of the answer and question owning a
root query (`answerMap.has` / `questionMap.has` guarded lookups followed
by the `!answer || !question` skip). -/
def resolveAnswerQuestion (questionMap : List (String × Question))
    (answerMap : List (String × Answer)) (rq : Query) : Option (Answer × Question) :=
  match rq.answer.bind (fun aid => lookupMap answerMap aid) with
  | none => none
  | some ans =>
    match ans.question.bind (fun qid => lookupMap questionMap qid) with
    | none => none
    | some ques => some (ans, ques)

/-- Walk of all direct children of a root query: unlike the recursive
child loop, the root loop walks every child, disabled ones included. -/
def walkRootChildren (f : Query → WalkState → QTree × WalkState) :
    List Query → WalkState → List QTree × WalkState
  | [], st => ([], st)
  | c :: rest, st =>
    let head := f c st
    let tail := walkRootChildren f rest head.2
    (head.1 :: tail.1, tail.2)

/-- The root loop of `getDataCollectorQuery`: skip a root query whose
answer or question does not resolve, otherwise attach it to the combined
root with its children taken from the multimap, walking each child. -/
def rootLoop (questionMap : List (String × Question)) (answerMap : List (String × Answer))
    (tree : List (String × List Query)) (fuel : Nat) :
    List Query → List QTree × WalkState → List QTree × WalkState
  | [], acc => acc
  | rq :: rest, acc =>
    match resolveAnswerQuestion questionMap answerMap rq with
    | none => rootLoop questionMap answerMap tree fuel rest acc
    | some aq =>
      let children := lookupMulti tree rq.id
      let walked := walkRootChildren (walkTree aq.1 aq.2 tree fuel) children acc.2
      rootLoop questionMap answerMap tree fuel rest
        (acc.1 ++ [QTree.node rq walked.1], walked.2)

/-- The synthetic combined root (`new Query()` with `match = Any` and an
empty `groups` list); all unassigned fields are absent or falsy. -/
def combinedRoot : Query :=
  { id := "", disabled := false, collect := false, parent := none, answer := none,
    category := none, matchType := QueryMatchType.Any, sortDirection := none }

/-- The result tuple of `getDataCollectorQuery`. -/
structure GDCResult where
  combinedQuery : Option QTree
  answerToTermsMap : List (String × List Query)
  termToAnswerMap : List (String × Answer)
  answerMap : List (String × Answer)
  terms : List Query
  termMap : List (String × Query)
  collectedChildrenMap : List (String × Bool)
  sectionMap : List (String × Section)

/-- The `getDataCollectorQuery` function of the source.  The two external fetches are
parameters: the three metadata maps stand for the result of
`getSectionsQuestionsAndAnswers`, and `repo` for
`queryRepository.findDescendantsForEntities`.  The per-question
`questionCombinedQueries` multimap and the hash loop that consumes it are
dead code in the source (they build local values that are never returned)
and are not embedded. -/
def getDataCollectorQuery (sectionMap : List (String × Section))
    (questionMap : List (String × Question)) (answerMap : List (String × Answer))
    (repo : List Query → List Query) : GDCResult :=
  let rootQueries := rootQueriesOf questionMap answerMap
  if rootQueries.isEmpty then
    { combinedQuery := none, answerToTermsMap := [], termToAnswerMap := [],
      answerMap := answerMap, terms := [], termMap := [],
      collectedChildrenMap := [], sectionMap := sectionMap }
  else
    let terms := repo rootQueries
    let built := buildQueryTree terms
    let walked := rootLoop questionMap answerMap built.1 terms.length rootQueries
      ([], emptyWalkState)
    { combinedQuery := some (QTree.node combinedRoot walked.1),
      answerToTermsMap := walked.2.answerToTermsMap,
      termToAnswerMap := walked.2.termToAnswerMap,
      answerMap := answerMap, terms := terms, termMap := built.2,
      collectedChildrenMap := walked.2.collectedChildrenMap, sectionMap := sectionMap }

end CDC

namespace QTC

/-- A criteria node as consumed by `QueryTreeContainer`.  Here `category`
is an optional string (truthy iff non-empty) and the children live in the
`groups` field (an absent list and an empty list are indistinguishable to
`indexTree` and are both embedded as `[]`).  The `parent` back-reference,
the `match` combinator, the filter list and the sort direction of the
source interface are never read by the container (it threads the parent
explicitly during traversal) and are not part of the embedding. -/
inductive Query where
  | mk (id : String) (category : Option String) (disabled : Bool) (groups : List Query)

def Query.id : Query → String
  | .mk i _ _ _ => i

def Query.category : Query → Option String
  | .mk _ c _ _ => c

def Query.disabled : Query → Bool
  | .mk _ _ d _ => d

def Query.groups : Query → List Query
  | .mk _ _ _ g => g

/-- Truthiness of `node.id`: a non-empty identifier. -/
def idTruthy (n : Query) : Bool := n.id != ""

/-- Truthiness of `node.category`: an assigned, non-empty string. -/
def catTruthy : Option String → Bool
  | none => false
  | some s => s != ""

/-- The `parentNode?.id && parentNode.category` test of `indexTree`:
returns the parent node when it exists with a truthy id and category. -/
def termParent : Option Query → Option Query
  | some p => if idTruthy p && catTruthy p.category then some p else none
  | none => none

/-- The four classification lists of `QueryTreeContainer`. -/
structure QueryTreeContainer where
  groups : List Query
  terms : List Query
  parentTerms : List Query
  termsByNestedTerm : List Query

def emptyContainer : QueryTreeContainer := ⟨[], [], [], []⟩

mutual
/-- The `indexTree` traversal of the source: pre-order traversal classifying each node;
a node with a falsy id is not classified at all, a node with a truthy
category is a term (recorded as nested when its parent is a truthy term,
as a parent term when additionally not disabled), any other node with a
truthy id is a group; children are always traversed with the current node
as parent. -/
def indexTree : Query → Option Query → QueryTreeContainer → QueryTreeContainer
  | node@(.mk _ _ _ gs), parentNode, st =>
    let st1 :=
      if idTruthy node then
        if catTruthy node.category then
          let stT := { st with terms := st.terms ++ [node] }
          match termParent parentNode with
          | some p => { stT with termsByNestedTerm := stT.termsByNestedTerm ++ [p] }
          | none =>
            if node.disabled then stT
            else { stT with parentTerms := stT.parentTerms ++ [node] }
        else { st with groups := st.groups ++ [node] }
      else st
    indexList gs (some node) st1

/-- The child loop of `indexTree`. -/
def indexList (l : List Query) (parentNode : Option Query) (st : QueryTreeContainer) :
    QueryTreeContainer :=
  match l with
  | [] => st
  | g :: gs => indexList gs parentNode (indexTree g parentNode st)
end

/-- The constructor: index the given root, or produce the empty container
when no root is supplied. -/
def mkContainer : Option Query → QueryTreeContainer
  | none => emptyContainer
  | some r => indexTree r none emptyContainer

def getAllTerms (c : QueryTreeContainer) : List Query := c.terms

def getParentTerms (c : QueryTreeContainer) : List Query := c.parentTerms

def getTerm (c : QueryTreeContainer) (termId : String) : Option Query :=
  c.terms.find? (fun t => t.id == termId)

def getGroup (c : QueryTreeContainer) (groupId : String) : Option Query :=
  c.groups.find? (fun t => t.id == groupId)

/-- The `getParentTerm` operation of the source: a linear scan of the
`termsByNestedTerm` array comparing each STORED node's own id with the
requested id. -/
def getParentTerm (c : QueryTreeContainer) (termId : String) : Option Query :=
  c.termsByNestedTerm.find? (fun t => t.id == termId)

mutual
/-- The pre-order list of (node, parent) pairs visited by `indexTree`. -/
def visitPairs : Query → Option Query → List (Query × Option Query)
  | node@(.mk _ _ _ gs), parentNode =>
    (node, parentNode) :: visitPairsList gs (some node)

def visitPairsList (l : List Query) (parentNode : Option Query) :
    List (Query × Option Query) :=
  match l with
  | [] => []
  | g :: gs => visitPairs g parentNode ++ visitPairsList gs parentNode
end

/-- The visit pairs of an optional root. -/
def pairsOf : Option Query → List (Query × Option Query)
  | none => []
  | some r => visitPairs r none

/-- Derived form of the term list: the visited nodes with truthy id and
category, in visit order. -/
def classTerms (pairs : List (Query × Option Query)) : List Query :=
  (pairs.filter fun pr => idTruthy pr.1 && catTruthy pr.1.category).map (fun pr => pr.1)

/-- Derived form of the group list: the visited truthy-id nodes without a
truthy category, in visit order. -/
def classGroups (pairs : List (Query × Option Query)) : List Query :=
  (pairs.filter fun pr => idTruthy pr.1 && !catTruthy pr.1.category).map (fun pr => pr.1)

/-- Derived form of the parent-term list: the enabled terms whose parent
is not a truthy term, in visit order. -/
def classParentTerms (pairs : List (Query × Option Query)) : List Query :=
  (pairs.filter fun pr =>
    idTruthy pr.1 && catTruthy pr.1.category && (termParent pr.2).isNone && !pr.1.disabled).map
    (fun pr => pr.1)

/-- Derived form of the nested-term list: for each term nested inside a
truthy term, the enclosing parent node, in visit order. -/
def classNested (pairs : List (Query × Option Query)) : List Query :=
  pairs.filterMap fun pr =>
    if idTruthy pr.1 && catTruthy pr.1.category then termParent pr.2 else none

/-- Append to a container the classification of a list of visited
(node, parent) pairs. -/
def stApp (st : QueryTreeContainer) (pairs : List (Query × Option Query)) :
    QueryTreeContainer :=
  { groups := st.groups ++ classGroups pairs
    terms := st.terms ++ classTerms pairs
    parentTerms := st.parentTerms ++ classParentTerms pairs
    termsByNestedTerm := st.termsByNestedTerm ++ classNested pairs }

end QTC

namespace CDC

/-- The exclusion condition of claim C1, as the claim words it: the
answer is hidden while its owning question resolves to a type other than
`MultipleChoiceSingleAnswer` (an unresolvable owning question also
satisfies "other than"). -/
def hiddenExclusion (questionMap : List (String × Question)) (a : Answer) : Prop :=
  a.hidden = true ∧ ∃ qid, a.question = some qid ∧
    (lookupMap questionMap qid).map Question.questionType ≠
      some QuestionType.MultipleChoiceSingleAnswer

end CDC

/- Concrete inputs used by the counterexamples and witnesses below.  One
project with a single visible answer `ans1` of question `q1`
(`sortDirection = Ascending`), whose root query `rootQ` carries an
authored `Descending` sort; the repository returns a term `termT` under
the root and a disabled term `termD` (with `collect = true` and a truthy
category) under `termT`. -/
namespace Ex

def q1 : CDC.Question :=
  ⟨"q1", false, CDC.QuestionType.SingleAnswer, CDC.SortDirection.Ascending⟩

def rootQ : CDC.Query :=
  ⟨"r", false, false, none, some ("a1"), none, CDC.QueryMatchType.Any,
    some CDC.SortDirection.Descending⟩

def ans1 : CDC.Answer := ⟨"a1", false, some ("q1"), some rootQ⟩

def termT : CDC.Query :=
  ⟨"t", false, false, some ("r"), none, some CDC.SearchCategoryType.Measurement,
    CDC.QueryMatchType.Any, some CDC.SortDirection.Descending⟩

def termD : CDC.Query :=
  ⟨"d", true, true, some ("t"), none, some CDC.SearchCategoryType.Measurement,
    CDC.QueryMatchType.Any, some CDC.SortDirection.Descending⟩

def questionMap : List (String × CDC.Question) := [("q1", q1)]

def answerMap : List (String × CDC.Answer) := [("a1", ans1)]

def result : CDC.GDCResult :=
  CDC.getDataCollectorQuery [] questionMap answerMap (fun _ => [termT, termD])

/-- The combined tree the embedding produces on the example: the walked
copy of `termT` carries the question's `Ascending` sort, while `rootQ`
itself and the skipped disabled `termD` keep their authored `Descending`. -/
def expectedTree : CDC.QTree :=
  .node CDC.combinedRoot
    [.node rootQ
      [.node { termT with sortDirection := some CDC.SortDirection.Ascending }
        [.node termD []]]]

/-- Nested-criteria example for the container: a term directly inside a
term. -/
def innerQ : QTC.Query := .mk ("c") (some ("measurement")) false []

def outerQ : QTC.Query := .mk ("p") (some ("medication")) false [innerQ]

/-- A node with an empty id but a truthy category, with a child term. -/
def anonQ : QTC.Query := .mk ("") (some ("medication")) false []

/-- Duplicate-id nodes sharing a resolvable parent id (they differ in the
`collect` flag). -/
def dupA : CDC.Query :=
  ⟨"x", false, false, some ("p"), none, none, CDC.QueryMatchType.Any, none⟩

def dupB : CDC.Query :=
  ⟨"x", false, true, some ("p"), none, none, CDC.QueryMatchType.Any, none⟩

/-- A repository returning no descendants. -/
def nilRepo : List CDC.Query → List CDC.Query := fun _ => []

end Ex

/-! ### Association-list map lemmas -/

theorem lookupMap_assocSet {α : Type} (m : List (String × α)) (k j : String) (v : α) :
    lookupMap (assocSet m k v) j = if k = j then some v else lookupMap m j := by
  induction m with
  | nil => simp [assocSet, lookupMap]
  | cons p rest ih =>
    by_cases h1 : p.1 = k <;> by_cases h2 : k = j <;>
      simp_all [assocSet, lookupMap]

theorem lookupMap_assocSet_self {α : Type} (m : List (String × α)) (k : String) (v : α) :
    lookupMap (assocSet m k v) k = some v := by
  simp [lookupMap_assocSet]

theorem lookupMap_addOne {α : Type} (m : List (String × List α)) (k j : String) (v : α) :
    lookupMap (addOneToMultiMap m k v) j =
      if k = j then some (lookupMulti m k ++ [v]) else lookupMap m j := by
  induction m with
  | nil => simp [addOneToMultiMap, lookupMap, lookupMulti]
  | cons p rest ih =>
    by_cases h1 : p.1 = k <;> by_cases h2 : k = j <;>
      simp_all [addOneToMultiMap, lookupMap, lookupMulti]

theorem mem_multiValues_addOne {α : Type} (m : List (String × List α)) (k : String)
    (v x : α) : x ∈ multiValues (addOneToMultiMap m k v) ↔ x ∈ multiValues m ∨ x = v := by
  induction m with
  | nil => simp [addOneToMultiMap, multiValues]
  | cons p rest ih =>
    by_cases h1 : p.1 = k <;> simp [addOneToMultiMap, multiValues, h1, ih, or_assoc]
    tauto

theorem mem_lookupMulti {α : Type} (m : List (String × List α)) (k : String) (x : α)
    (hx : x ∈ lookupMulti m k) : x ∈ multiValues m := by
  induction m with
  | nil => simp [lookupMulti, lookupMap] at hx
  | cons p rest ih =>
    by_cases h1 : p.1 = k
    · subst h1
      simp [lookupMulti, lookupMap] at hx
      simp [multiValues, hx]
    · simp [lookupMulti, lookupMap, h1] at hx
      simp [multiValues]
      exact Or.inr (ih hx)

theorem mem_mapValues_assocSet {α : Type} (m : List (String × α)) (k : String) (v x : α)
    (hx : x ∈ mapValues (assocSet m k v)) : x = v ∨ x ∈ mapValues m := by
  induction m with
  | nil => simpa [assocSet, mapValues] using hx
  | cons p rest ih =>
    by_cases h1 : p.1 = k
    · subst h1
      simp [assocSet, mapValues] at hx
      rcases hx with h | h
      · exact Or.inl h
      · exact Or.inr (by simp [mapValues, h])
    · simp [assocSet, mapValues, h1] at hx
      rcases hx with h | h
      · exact Or.inr (by simp [mapValues, h])
      · rcases ih (by simpa [mapValues] using h) with h2 | h2
        · exact Or.inl h2
        · exact Or.inr (by simp [mapValues] at h2 ⊢; exact Or.inr h2)

/-! ### Lemmas about the tree walk -/

namespace CDC

theorem walkTree_disabled (a : Answer) (q : Question) (tree : List (String × List Query))
    (fuel : Nat) (term : Query) (st : WalkState) (hd : term.disabled = true) :
    walkTree a q tree fuel term st =
      (QTree.node { term with sortDirection := some q.sortDirection }
        ((lookupMulti tree term.id).map fun c => QTree.node c []),
       { st with
          termToAnswerMap := assocSet st.termToAnswerMap term.id a
          answerToTermsMap := addOneToMultiMap st.answerToTermsMap a.id
            { term with sortDirection := some q.sortDirection } }) := by
  rw [walkTree.eq_def]
  simp [hd]

theorem walkTree_fst_val (a : Answer) (q : Question) (tree : List (String × List Query))
    (fuel : Nat) (term : Query) (st : WalkState) :
    ((walkTree a q tree fuel term st).1).val =
      { term with sortDirection := some q.sortDirection } := by
  rw [walkTree.eq_def]
  by_cases h : (term.disabled || (lookupMulti tree term.id).isEmpty) = true
  · simp [h, QTree.val]
  · cases fuel <;> simp [h, QTree.val]

theorem walkTree_collected_set (a : Answer) (q : Question)
    (tree : List (String × List Query)) (fuel : Nat) (term : Query) (st : WalkState)
    (h1 : term.disabled = false) (h2 : lookupMulti tree term.id ≠ [])
    (h3 : categoryTruthy term.category = true) :
    lookupMap (walkTree a q tree fuel term st).2.collectedChildrenMap term.id =
      some ((lookupMulti tree term.id).any fun c => c.collect) := by
  rw [walkTree.eq_def]
  have hne : (lookupMulti tree term.id).isEmpty = false := by
    simpa [List.isEmpty_iff] using h2
  cases fuel <;> simp [h1, hne, h3, lookupMap_assocSet_self]

theorem walkTree_collected_skip (a : Answer) (q : Question)
    (tree : List (String × List Query)) (fuel : Nat) (term : Query) (st : WalkState)
    (h : term.disabled = true ∨ lookupMulti tree term.id = []) :
    (walkTree a q tree fuel term st).2.collectedChildrenMap = st.collectedChildrenMap := by
  rw [walkTree.eq_def]
  rcases h with h | h
  · simp [h]
  · simp [h]

theorem walkSubQueries_skips_disabled (f : Query → WalkState → QTree × WalkState)
    (cs : List Query) (st : WalkState) :
    (walkSubQueries f cs st).2 =
      (walkSubQueries f (cs.filter fun c => !c.disabled) st).2 := by
  induction cs generalizing st with
  | nil => simp [walkSubQueries]
  | cons c rest ih =>
    by_cases hd : c.disabled = true
    · simp [walkSubQueries, hd, ih]
    · have hd2 : c.disabled = false := by simpa using hd
      simp [walkSubQueries, hd2, ih]

end CDC

namespace CDC

theorem subtreesList_leaves (cs : List Query) :
    subtreesList (cs.map fun c => QTree.node c []) = cs.map fun c => QTree.node c [] := by
  induction cs with
  | nil => simp [subtreesList]
  | cons c rest ih => simp [subtreesList, QTree.subtrees, ih]

theorem walkTree_subtree_sort (a : Answer) (q : Question)
    (tree : List (String × List Query)) :
    ∀ (fuel : Nat) (term : Query) (st : WalkState),
      ∀ s ∈ QTree.subtrees (walkTree a q tree fuel term st).1,
        s.val.sortDirection = some q.sortDirection ∨ s.val ∈ multiValues tree := by
  intro fuel
  induction fuel with
  | zero =>
    intro term st s hs
    rw [walkTree.eq_def] at hs
    by_cases h : (term.disabled || (lookupMulti tree term.id).isEmpty) = true
    · simp only [h, if_true] at hs
      simp [QTree.subtrees, subtreesList_leaves] at hs
      rcases hs with h1 | ⟨c, hc, h1⟩
      · subst h1; simp [QTree.val]
      · subst h1
        exact Or.inr (by simp [QTree.val]; exact mem_lookupMulti tree term.id c hc)
    · simp only [h] at hs
      simp [QTree.subtrees, subtreesList_leaves] at hs
      rcases hs with h1 | ⟨c, hc, h1⟩
      · subst h1; simp [QTree.val]
      · subst h1
        exact Or.inr (by simp [QTree.val]; exact mem_lookupMulti tree term.id c hc)
  | succ fuel ih =>
    intro term st s hs
    rw [walkTree.eq_def] at hs
    by_cases h : (term.disabled || (lookupMulti tree term.id).isEmpty) = true
    · simp only [h, if_true] at hs
      simp [QTree.subtrees, subtreesList_leaves] at hs
      rcases hs with h1 | ⟨c, hc, h1⟩
      · subst h1; simp [QTree.val]
      · subst h1
        exact Or.inr (by simp [QTree.val]; exact mem_lookupMulti tree term.id c hc)
    · have aux : ∀ (cs : List Query) (st0 : WalkState),
          (∀ c ∈ cs, c ∈ multiValues tree) →
          ∀ s2 ∈ subtreesList (walkSubQueries (walkTree a q tree fuel) cs st0).1,
            s2.val.sortDirection = some q.sortDirection ∨ s2.val ∈ multiValues tree := by
        intro cs
        induction cs with
        | nil => intro st0 _ s2 hs2; simp [walkSubQueries, subtreesList] at hs2
        | cons c rest ihc =>
          intro st0 hmem s2 hs2
          by_cases hd : c.disabled = true
          · simp only [walkSubQueries, hd, if_true] at hs2
            simp [subtreesList, QTree.subtrees] at hs2
            rcases hs2 with h1 | h1
            · subst h1
              exact Or.inr (by simp [QTree.val]; exact hmem c (by simp))
            · exact ihc _ (fun x hx => hmem x (by simp [hx])) s2 h1
          · have hd2 : c.disabled = false := by simpa using hd
            simp only [walkSubQueries, hd2, Bool.false_eq_true, if_false] at hs2
            simp [subtreesList] at hs2
            rcases hs2 with h1 | h1
            · exact ih c st0 s2 h1
            · exact ihc _ (fun x hx => hmem x (by simp [hx])) s2 h1
      simp only [h] at hs
      simp [QTree.subtrees] at hs
      rcases hs with h1 | h1
      · subst h1; simp [QTree.val]
      · exact aux (lookupMulti tree term.id) _
          (fun c hc => mem_lookupMulti tree term.id c hc) s h1

theorem walkRootChildren_sort (a : Answer) (q : Question)
    (tree : List (String × List Query)) (fuel : Nat) :
    ∀ (cs : List Query) (st : WalkState),
      ∀ t ∈ (walkRootChildren (walkTree a q tree fuel) cs st).1,
        t.val.sortDirection = some q.sortDirection := by
  intro cs
  induction cs with
  | nil => intro st t ht; simp [walkRootChildren] at ht
  | cons c rest ih =>
    intro st t ht
    simp [walkRootChildren] at ht
    rcases ht with h1 | h1
    · subst h1
      simp [walkTree_fst_val]
    · exact ih _ t h1

theorem rootLoop_nil (qm : List (String × Question)) (am : List (String × Answer))
    (tree : List (String × List Query)) (fuel : Nat) (acc : List QTree × WalkState) :
    rootLoop qm am tree fuel [] acc = acc := rfl

theorem rootLoop_cons (qm : List (String × Question)) (am : List (String × Answer))
    (tree : List (String × List Query)) (fuel : Nat) (rq : Query) (rest : List Query)
    (acc : List QTree × WalkState) :
    rootLoop qm am tree fuel (rq :: rest) acc =
      match resolveAnswerQuestion qm am rq with
      | none => rootLoop qm am tree fuel rest acc
      | some aq =>
        let children := lookupMulti tree rq.id
        let walked := walkRootChildren (walkTree aq.1 aq.2 tree fuel) children acc.2
        rootLoop qm am tree fuel rest (acc.1 ++ [QTree.node rq walked.1], walked.2) := rfl

theorem rootLoop_roots (qm : List (String × Question)) (am : List (String × Answer))
    (tree : List (String × List Query)) (fuel : Nat) :
    ∀ (rqs : List Query) (acc : List QTree × WalkState) (t : QTree),
      t ∈ (rootLoop qm am tree fuel rqs acc).1 →
      t ∈ acc.1 ∨ ∃ rq ∈ rqs, t.val = rq ∧
        ∃ aq, resolveAnswerQuestion qm am rq = some aq ∧
          ∀ c ∈ t.children, c.val.sortDirection = some aq.2.sortDirection := by
  intro rqs
  induction rqs with
  | nil => intro acc t ht; exact Or.inl (by simpa [rootLoop_nil] using ht)
  | cons rq rest ih =>
    intro acc t ht
    rw [rootLoop_cons] at ht
    rcases hres : resolveAnswerQuestion qm am rq with _ | aq <;> rw [hres] at ht <;>
      dsimp only at ht
    · rcases ih acc t ht with h1 | ⟨rq2, hrq2, h2⟩
      · exact Or.inl h1
      · exact Or.inr ⟨rq2, by simp [hrq2], h2⟩
    · rcases ih _ t ht with h1 | ⟨rq2, hrq2, h2⟩
      · simp at h1
        rcases h1 with h1 | h1
        · exact Or.inl h1
        · refine Or.inr ⟨rq, by simp, ?_, aq, hres, ?_⟩
          · rw [h1]; simp [QTree.val]
          · intro c hc
            rw [h1] at hc
            simp [QTree.children] at hc
            exact walkRootChildren_sort aq.1 aq.2 tree fuel _ _ c hc
      · exact Or.inr ⟨rq2, by simp [hrq2], h2⟩

end CDC

namespace CDC

theorem selectRoot_isSome_iff (qm : List (String × Question)) (a : Answer) :
    (selectRoot qm a).isSome = true ↔
      (a.query.isSome = true ∧ ¬ hiddenExclusion qm a) := by
  unfold selectRoot hiddenExclusion
  rcases hq : a.question with _ | qid <;> cases hh : a.hidden
  · simp [hq, hh]
  · simp [hq, hh]
  · simp [hq, hh]
  · by_cases ht : (lookupMap qm qid).map Question.questionType =
        some QuestionType.MultipleChoiceSingleAnswer
    · simp [hq, hh, ht]
      intro _
      rcases hlk : lookupMap qm qid with _ | x
      · rw [hlk] at ht; simp at ht
      · rw [hlk] at ht
        simp at ht
        exact ⟨x, rfl, ht⟩
    · simp [hq, hh, ht]
      intro _ x hlk hqt
      exact ht (by rw [hlk]; simp [hqt])

theorem selectRoot_some_query (qm : List (String × Question)) (a : Answer) (x : Query)
    (h : selectRoot qm a = some x) : a.query = some x := by
  unfold selectRoot at h
  rcases hq : a.question with _ | qid <;> cases hh : a.hidden <;> rw [hq, hh] at h
  · exact h
  · exact h
  · exact h
  · by_cases ht : (lookupMap qm qid).map Question.questionType =
        some QuestionType.MultipleChoiceSingleAnswer
    · simpa [ht] using h
    · simp [ht] at h

theorem containsKey_assocSet {α : Type} (m : List (String × α)) (k j : String) (v : α) :
    containsKey (assocSet m k v) j = true ↔ (k = j ∨ containsKey m j = true) := by
  by_cases h : k = j <;> simp [containsKey, lookupMap_assocSet, h]

theorem buildQueryTreeGo_filter :
    ∀ (terms : List Query) (tree : List (String × List Query))
      (termMap : List (String × Query)),
      buildQueryTreeGo terms tree termMap =
        buildQueryTreeGo (terms.filter parentResolvable) tree termMap := by
  intro terms
  induction terms with
  | nil => intro tree termMap; simp [buildQueryTreeGo]
  | cons t rest ih =>
    intro tree termMap
    rcases hp : t.parent with _ | pid
    · have hres : parentResolvable t = false := by simp [parentResolvable, hp]
      simp [buildQueryTreeGo, hp, hres, ih]
    · by_cases he : pid = ""
      · have hres : parentResolvable t = false := by simp [parentResolvable, hp, he]
        simp [buildQueryTreeGo, hp, he, hres, ih]
      · have hres : parentResolvable t = true := by simp [parentResolvable, hp, he]
        simp [buildQueryTreeGo, hp, he, hres, ih]

theorem mem_multiValues_buildGo :
    ∀ (terms : List Query) (tree : List (String × List Query))
      (termMap : List (String × Query)) (x : Query),
      x ∈ multiValues (buildQueryTreeGo terms tree termMap).1 ↔
        (x ∈ multiValues tree ∨ (x ∈ terms ∧ parentResolvable x = true)) := by
  intro terms
  induction terms with
  | nil => intro tree termMap x; simp [buildQueryTreeGo]
  | cons t rest ih =>
    intro tree termMap x
    rcases hp : t.parent with _ | pid
    · have hres : parentResolvable t = false := by simp [parentResolvable, hp]
      simp only [buildQueryTreeGo, hp, ih]
      constructor
      · rintro (h | ⟨h1, h2⟩)
        · exact Or.inl h
        · exact Or.inr ⟨by simp [h1], h2⟩
      · rintro (h | ⟨h1, h2⟩)
        · exact Or.inl h
        · simp at h1
          rcases h1 with h1 | h1
          · subst h1; rw [hres] at h2; cases h2
          · exact Or.inr ⟨h1, h2⟩
    · by_cases he : pid = ""
      · have hres : parentResolvable t = false := by simp [parentResolvable, hp, he]
        simp only [buildQueryTreeGo, hp, he, if_true, ih]
        constructor
        · rintro (h | ⟨h1, h2⟩)
          · exact Or.inl h
          · exact Or.inr ⟨by simp [h1], h2⟩
        · rintro (h | ⟨h1, h2⟩)
          · exact Or.inl h
          · simp at h1
            rcases h1 with h1 | h1
            · subst h1; rw [hres] at h2; cases h2
            · exact Or.inr ⟨h1, h2⟩
      · have hres : parentResolvable t = true := by simp [parentResolvable, hp, he]
        simp only [buildQueryTreeGo, hp, he, if_false, ih, mem_multiValues_addOne]
        constructor
        · rintro ((h | h) | ⟨h1, h2⟩)
          · exact Or.inl h
          · exact Or.inr ⟨by simp [h], h.symm ▸ hres⟩
          · exact Or.inr ⟨by simp [h1], h2⟩
        · rintro (h | ⟨h1, h2⟩)
          · exact Or.inl (Or.inl h)
          · simp at h1
            rcases h1 with h1 | h1
            · exact Or.inl (Or.inr h1)
            · exact Or.inr ⟨h1, h2⟩

theorem containsKey_buildGo_snd :
    ∀ (terms : List Query) (tree : List (String × List Query))
      (termMap : List (String × Query)) (k : String),
      containsKey (buildQueryTreeGo terms tree termMap).2 k = true ↔
        (containsKey termMap k = true ∨
          ∃ t ∈ terms, parentResolvable t = true ∧ t.id = k) := by
  intro terms
  induction terms with
  | nil => intro tree termMap k; simp [buildQueryTreeGo]
  | cons t rest ih =>
    intro tree termMap k
    rcases hp : t.parent with _ | pid
    · have hres : parentResolvable t = false := by simp [parentResolvable, hp]
      simp only [buildQueryTreeGo, hp, ih]
      constructor
      · rintro (h | ⟨t2, h1, h2⟩)
        · exact Or.inl h
        · exact Or.inr ⟨t2, by simp [h1], h2⟩
      · rintro (h | ⟨t2, h1, h2⟩)
        · exact Or.inl h
        · simp at h1
          rcases h1 with h1 | h1
          · subst h1; rw [hres] at h2; simp at h2
          · exact Or.inr ⟨t2, h1, h2⟩
    · by_cases he : pid = ""
      · have hres : parentResolvable t = false := by simp [parentResolvable, hp, he]
        simp only [buildQueryTreeGo, hp, he, if_true, ih]
        constructor
        · rintro (h | ⟨t2, h1, h2⟩)
          · exact Or.inl h
          · exact Or.inr ⟨t2, by simp [h1], h2⟩
        · rintro (h | ⟨t2, h1, h2⟩)
          · exact Or.inl h
          · simp at h1
            rcases h1 with h1 | h1
            · subst h1; rw [hres] at h2; simp at h2
            · exact Or.inr ⟨t2, h1, h2⟩
      · have hres : parentResolvable t = true := by simp [parentResolvable, hp, he]
        simp only [buildQueryTreeGo, hp, he, if_false, ih, containsKey_assocSet]
        constructor
        · rintro ((h | h) | ⟨t2, h1, h2⟩)
          · exact Or.inr ⟨t, by simp, hres, h⟩
          · exact Or.inl h
          · exact Or.inr ⟨t2, by simp [h1], h2⟩
        · rintro (h | ⟨t2, h1, h2⟩)
          · exact Or.inl (Or.inr h)
          · simp at h1
            rcases h1 with h1 | h1
            · subst h1; exact Or.inl (Or.inl h2.2)
            · exact Or.inr ⟨t2, h1, h2⟩

theorem lookupMap_buildGo_snd :
    ∀ (terms : List Query) (tree : List (String × List Query))
      (termMap : List (String × Query)) (k : String) (t : Query),
      lookupMap (buildQueryTreeGo terms tree termMap).2 k = some t →
        (lookupMap termMap k = some t ∨
          (t ∈ terms ∧ parentResolvable t = true ∧ t.id = k)) := by
  intro terms
  induction terms with
  | nil => intro tree termMap k t h; exact Or.inl (by simpa [buildQueryTreeGo] using h)
  | cons t0 rest ih =>
    intro tree termMap k t h
    rcases hp : t0.parent with _ | pid
    · rw [buildQueryTreeGo, hp] at h
      dsimp only at h
      rcases ih _ _ _ _ h with h1 | ⟨h1, h2⟩
      · exact Or.inl h1
      · exact Or.inr ⟨by simp [h1], h2⟩
    · by_cases he : pid = ""
      · rw [buildQueryTreeGo, hp] at h
        dsimp only at h
        rw [if_pos he] at h
        rcases ih _ _ _ _ h with h1 | ⟨h1, h2⟩
        · exact Or.inl h1
        · exact Or.inr ⟨by simp [h1], h2⟩
      · have hres : parentResolvable t0 = true := by simp [parentResolvable, hp, he]
        rw [buildQueryTreeGo, hp] at h
        dsimp only at h
        rw [if_neg he] at h
        rcases ih _ _ _ _ h with h1 | ⟨h1, h2⟩
        · rw [lookupMap_assocSet] at h1
          by_cases hk : t0.id = k
          · rw [if_pos hk] at h1
            cases h1
            exact Or.inr ⟨by simp, hres, hk⟩
          · rw [if_neg hk] at h1
            exact Or.inl h1
        · exact Or.inr ⟨by simp [h1], h2⟩

end CDC

/-! ### Characterization of the container construction as a pre-order
classification -/

namespace QTC

theorem classTerms_append (p1 p2 : List (Query × Option Query)) :
    classTerms (p1 ++ p2) = classTerms p1 ++ classTerms p2 := by
  simp [classTerms]

theorem classGroups_append (p1 p2 : List (Query × Option Query)) :
    classGroups (p1 ++ p2) = classGroups p1 ++ classGroups p2 := by
  simp [classGroups]

theorem classParentTerms_append (p1 p2 : List (Query × Option Query)) :
    classParentTerms (p1 ++ p2) = classParentTerms p1 ++ classParentTerms p2 := by
  simp [classParentTerms]

theorem classNested_append (p1 p2 : List (Query × Option Query)) :
    classNested (p1 ++ p2) = classNested p1 ++ classNested p2 := by
  simp [classNested]

theorem stApp_nil (st : QueryTreeContainer) : stApp st [] = st := by
  cases st
  simp [stApp, classTerms, classGroups, classParentTerms, classNested]

theorem stApp_append (st : QueryTreeContainer) (p1 p2 : List (Query × Option Query)) :
    stApp (stApp st p1) p2 = stApp st (p1 ++ p2) := by
  cases st
  simp [stApp, classTerms_append, classGroups_append, classParentTerms_append,
    classNested_append]

theorem indexBoth : ∀ (m : Nat),
    (∀ (node : Query) (parentNode : Option Query) (st : QueryTreeContainer),
      sizeOf node ≤ m →
        indexTree node parentNode st = stApp st (visitPairs node parentNode)) ∧
    (∀ (l : List Query) (parentNode : Option Query) (st : QueryTreeContainer),
      sizeOf l ≤ m →
        indexList l parentNode st = stApp st (visitPairsList l parentNode)) := by
  intro m
  induction m using Nat.strong_induction_on with
  | _ m ih =>
    constructor
    · rintro ⟨i, c, d, gs⟩ parentNode st hm
      have hgs : sizeOf gs < m := by
        have h1 : sizeOf gs < sizeOf (Query.mk i c d gs) := by
          simp
        omega
      rw [indexTree, visitPairs]
      rw [(ih (sizeOf gs) hgs).2 gs _ _ (le_refl _)]
      have hstep :
          (if idTruthy (Query.mk i c d gs) then
            if catTruthy (Query.mk i c d gs).category then
              let stT := { st with terms := st.terms ++ [Query.mk i c d gs] }
              match termParent parentNode with
              | some p => { stT with termsByNestedTerm := stT.termsByNestedTerm ++ [p] }
              | none =>
                if (Query.mk i c d gs).disabled then stT
                else { stT with parentTerms := stT.parentTerms ++ [Query.mk i c d gs] }
            else { st with groups := st.groups ++ [Query.mk i c d gs] }
          else st) = stApp st [(Query.mk i c d gs, parentNode)] := by
        cases st
        by_cases h1 : idTruthy (Query.mk i c d gs) = true
        · by_cases h2 : catTruthy (Query.mk i c d gs).category = true
          · rcases hpt : termParent parentNode with _ | p0
            · by_cases h3 : (Query.mk i c d gs).disabled = true
              · simp [h1, h2, hpt, h3, stApp, classTerms, classGroups,
                  classParentTerms, classNested]
              · simp [h1, h2, hpt, h3, stApp, classTerms, classGroups,
                  classParentTerms, classNested]
            · simp [h1, h2, hpt, stApp, classTerms, classGroups,
                classParentTerms, classNested]
          · simp [h1, h2, stApp, classTerms, classGroups, classParentTerms, classNested]
        · simp [h1, stApp, classTerms, classGroups, classParentTerms, classNested]
      rw [hstep]
      rw [show (Query.mk i c d gs, parentNode) :: visitPairsList gs (some (Query.mk i c d gs)) =
        [(Query.mk i c d gs, parentNode)] ++ visitPairsList gs (some (Query.mk i c d gs)) from rfl]
      rw [← stApp_append]
    · intro l parentNode st hm
      rcases l with _ | ⟨g, gs⟩
      · rw [indexList, visitPairsList, stApp_nil]
      · have hg : sizeOf g < m := by
          have h1 : sizeOf g < sizeOf (g :: gs) := by simp; omega
          omega
        have hgs : sizeOf gs < m := by
          have h1 : sizeOf gs < sizeOf (g :: gs) := by simp
          omega
        rw [indexList, visitPairsList]
        rw [(ih (sizeOf g) hg).1 g _ _ (le_refl _)]
        rw [(ih (sizeOf gs) hgs).2 gs _ _ (le_refl _)]
        rw [stApp_append]

theorem indexTree_char (node : Query) (parentNode : Option Query)
    (st : QueryTreeContainer) :
    indexTree node parentNode st = stApp st (visitPairs node parentNode) :=
  (indexBoth (sizeOf node)).1 node parentNode st (le_refl _)

theorem mkContainer_char (root : Option Query) :
    mkContainer root = stApp emptyContainer (pairsOf root) := by
  rcases root with _ | r
  · rw [pairsOf, stApp_nil]; rfl
  · rw [mkContainer, pairsOf, indexTree_char]

theorem mkContainer_terms (root : Option Query) :
    (mkContainer root).terms = classTerms (pairsOf root) := by
  rw [mkContainer_char]; simp [stApp, emptyContainer]

theorem mkContainer_groups (root : Option Query) :
    (mkContainer root).groups = classGroups (pairsOf root) := by
  rw [mkContainer_char]; simp [stApp, emptyContainer]

theorem mkContainer_parentTerms (root : Option Query) :
    (mkContainer root).parentTerms = classParentTerms (pairsOf root) := by
  rw [mkContainer_char]; simp [stApp, emptyContainer]

theorem mkContainer_nested (root : Option Query) :
    (mkContainer root).termsByNestedTerm = classNested (pairsOf root) := by
  rw [mkContainer_char]; simp [stApp, emptyContainer]

end QTC

namespace QTC

theorem termParent_some (o : Option Query) (x : Query) (h : termParent o = some x) :
    o = some x ∧ idTruthy x = true ∧ catTruthy x.category = true := by
  rcases o with _ | p
  · simp [termParent] at h
  · by_cases hc : (idTruthy p && catTruthy p.category) = true
    · simp only [termParent, hc, if_true, Option.some.injEq] at h
      subst h
      simp at hc
      exact ⟨rfl, hc.1, hc.2⟩
    · simp only [termParent, hc, if_false] at h
      cases h

theorem mem_classTerms (pairs : List (Query × Option Query)) (x : Query) :
    x ∈ classTerms pairs ↔
      ∃ p, (x, p) ∈ pairs ∧ idTruthy x = true ∧ catTruthy x.category = true := by
  simp only [classTerms, List.mem_map, List.mem_filter]
  constructor
  · rintro ⟨⟨n, p⟩, ⟨hmem, hcond⟩, rfl⟩
    simp at hcond
    exact ⟨p, hmem, hcond.1, hcond.2⟩
  · rintro ⟨p, hmem, h1, h2⟩
    exact ⟨(x, p), ⟨hmem, by simp [h1, h2]⟩, rfl⟩

theorem mem_classGroups (pairs : List (Query × Option Query)) (x : Query) :
    x ∈ classGroups pairs ↔
      ∃ p, (x, p) ∈ pairs ∧ idTruthy x = true ∧ catTruthy x.category = false := by
  simp only [classGroups, List.mem_map, List.mem_filter]
  constructor
  · rintro ⟨⟨n, p⟩, ⟨hmem, hcond⟩, rfl⟩
    simp at hcond
    exact ⟨p, hmem, hcond.1, by simpa using hcond.2⟩
  · rintro ⟨p, hmem, h1, h2⟩
    exact ⟨(x, p), ⟨hmem, by simp [h1, h2]⟩, rfl⟩

theorem mem_classParentTerms (pairs : List (Query × Option Query)) (x : Query) :
    x ∈ classParentTerms pairs ↔
      ∃ p, (x, p) ∈ pairs ∧ idTruthy x = true ∧ catTruthy x.category = true ∧
        termParent p = none ∧ x.disabled = false := by
  simp only [classParentTerms, List.mem_map, List.mem_filter]
  constructor
  · rintro ⟨⟨n, p⟩, ⟨hmem, hcond⟩, rfl⟩
    simp at hcond
    obtain ⟨⟨⟨h1, h2⟩, h3⟩, h4⟩ := hcond
    exact ⟨p, hmem, h1, h2, h3, h4⟩
  · rintro ⟨p, hmem, h1, h2, h3, h4⟩
    exact ⟨(x, p), ⟨hmem, by simp [h1, h2, h3, h4]⟩, rfl⟩

theorem mem_classNested (pairs : List (Query × Option Query)) (x : Query) :
    x ∈ classNested pairs ↔
      ∃ n p, (n, p) ∈ pairs ∧ idTruthy n = true ∧ catTruthy n.category = true ∧
        termParent p = some x := by
  simp only [classNested, List.mem_filterMap]
  constructor
  · rintro ⟨⟨n, p⟩, hmem, hcond⟩
    by_cases hc : (idTruthy n && catTruthy n.category) = true
    · rw [if_pos hc] at hcond
      simp at hc
      exact ⟨n, p, hmem, hc.1, hc.2, hcond⟩
    · rw [if_neg hc] at hcond
      cases hcond
  · rintro ⟨n, p, hmem, h1, h2, h3⟩
    exact ⟨(n, p), hmem, by simp [h1, h2, h3]⟩

theorem mem_visitPairsList_of_mem (c : Query) (l : List Query) (par : Option Query)
    (hc : c ∈ l) : (c, par) ∈ visitPairsList l par := by
  induction l with
  | nil => cases hc
  | cons g gs ihl =>
    rw [visitPairsList]
    rcases List.mem_cons.mp hc with h | h
    · subst h
      refine List.mem_append_left _ ?_
      rcases c with ⟨i, cc, dd, g2⟩
      rw [visitPairs]
      exact List.mem_cons_self _ _
    · exact List.mem_append_right _ (ihl h)

theorem visitPairs_children : ∀ (m : Nat),
    (∀ (r : Query) (p0 : Option Query), sizeOf r ≤ m →
      ∀ n p, (n, p) ∈ visitPairs r p0 → ∀ c ∈ n.groups, (c, some n) ∈ visitPairs r p0) ∧
    (∀ (l : List Query) (p0 : Option Query), sizeOf l ≤ m →
      ∀ n p, (n, p) ∈ visitPairsList l p0 →
        ∀ c ∈ n.groups, (c, some n) ∈ visitPairsList l p0) := by
  intro m
  induction m using Nat.strong_induction_on with
  | _ m ih =>
    constructor
    · rintro ⟨i, cc, d, gs⟩ p0 hm n p hn c hc
      have hgs : sizeOf gs < m := by
        have h1 : sizeOf gs < sizeOf (Query.mk i cc d gs) := by simp
        omega
      rw [visitPairs] at hn ⊢
      rcases List.mem_cons.mp hn with h | h
      · have hn2 : n = Query.mk i cc d gs := congrArg Prod.fst h
        subst hn2
        refine List.mem_cons_of_mem _ ?_
        exact mem_visitPairsList_of_mem c gs _ (by simpa [Query.groups] using hc)
      · exact List.mem_cons_of_mem _
          ((ih (sizeOf gs) hgs).2 gs _ (le_refl _) n p h c hc)
    · intro l p0 hm n p hn c hc
      rcases l with _ | ⟨g, gs⟩
      · rw [visitPairsList] at hn
        cases hn
      · have hg : sizeOf g < m := by
          have h1 : sizeOf g < sizeOf (g :: gs) := by simp; omega
          omega
        have hgs : sizeOf gs < m := by
          have h1 : sizeOf gs < sizeOf (g :: gs) := by simp
          omega
        rw [visitPairsList] at hn ⊢
        rcases List.mem_append.mp hn with h | h
        · exact List.mem_append_left _
            ((ih (sizeOf g) hg).1 g _ (le_refl _) n p h c hc)
        · exact List.mem_append_right _
            ((ih (sizeOf gs) hgs).2 gs _ (le_refl _) n p h c hc)

theorem pairsOf_children (root : Option Query) (n : Query) (p : Option Query)
    (h : (n, p) ∈ pairsOf root) (c : Query) (hc : c ∈ n.groups) :
    (c, some n) ∈ pairsOf root := by
  rcases root with _ | r
  · simp [pairsOf] at h
  · exact (visitPairs_children (sizeOf r)).1 r none (le_refl _) n p h c hc

end QTC

/-! ### Claim theorems -/

/-- Claim C1: for every answer loaded for the project, the answer's query
is included in the root set if and only if the answer has an attached
query and it is not the case that the answer is hidden while its owning
question's type is not MultipleChoiceSingleAnswer. -/
theorem claim_C1_root_inclusion (questionMap : List (String × CDC.Question))
    (answerMap : List (String × CDC.Answer)) (a : CDC.Answer)
    (ha : a ∈ CDC.answersOf answerMap) :
    (∃ q, CDC.selectRoot questionMap a = some q ∧
        q ∈ CDC.rootQueriesOf questionMap answerMap) ↔
      (a.query.isSome = true ∧ ¬ CDC.hiddenExclusion questionMap a) := by
  constructor
  · rintro ⟨q, hsel, _⟩
    have h1 : (CDC.selectRoot questionMap a).isSome = true := by simp [hsel]
    exact (CDC.selectRoot_isSome_iff questionMap a).mp h1
  · intro hcond
    have h1 : (CDC.selectRoot questionMap a).isSome = true :=
      (CDC.selectRoot_isSome_iff questionMap a).mpr hcond
    rcases hsel : CDC.selectRoot questionMap a with _ | q
    · rw [hsel] at h1; cases h1
    · refine ⟨q, rfl, ?_⟩
      unfold CDC.rootQueriesOf
      exact List.mem_filterMap.mpr ⟨a, ha, hsel⟩

/-- Claim C1 witness: on the concrete example project, the visible answer
with a query contributes its root query to the root set. -/
theorem claim_C1_witness : Ex.rootQ ∈ CDC.rootQueriesOf Ex.questionMap Ex.answerMap := by
  obtain ⟨q, hsel, hmem⟩ :=
    (claim_C1_root_inclusion Ex.questionMap Ex.answerMap Ex.ans1
      (by rw [show CDC.answersOf Ex.answerMap = [Ex.ans1] from rfl]
          exact List.mem_cons_self _ _)).mpr
      ⟨rfl, fun h => by simpa [Ex.ans1] using h.1⟩
  have h2 : CDC.selectRoot Ex.questionMap Ex.ans1 = some Ex.rootQ := rfl
  have h3 := h2.symm.trans hsel
  injection h3 with h4
  rwa [h4]

/-- Claim C2 counterexample: on the concrete example project, the root
query node itself is part of the combined subtree rooted at the answer's
root query, yet its sortDirection keeps the authored Descending value
while the owning question's sortDirection is Ascending. -/
theorem claim_C2_counterexample :
    Ex.result.combinedQuery = some Ex.expectedTree ∧
    Ex.q1.sortDirection = CDC.SortDirection.Ascending ∧
    (∃ rt ∈ CDC.QTree.children Ex.expectedTree, rt.val = Ex.rootQ ∧
      rt.val.sortDirection ≠ some CDC.SortDirection.Ascending) := by
  refine ⟨rfl, rfl, CDC.QTree.node Ex.rootQ
    [CDC.QTree.node { Ex.termT with sortDirection := some CDC.SortDirection.Ascending }
      [CDC.QTree.node Ex.termD []]], ?_, rfl, by simp [Ex.rootQ, CDC.QTree.val]⟩
  rw [show CDC.QTree.children Ex.expectedTree =
    [CDC.QTree.node Ex.rootQ
      [CDC.QTree.node { Ex.termT with sortDirection := some CDC.SortDirection.Ascending }
        [CDC.QTree.node Ex.termD []]]] from rfl]
  exact List.mem_cons_self _ _

/-- Claim C2 (amended): every node on which walkTree is invoked ends with
its sortDirection overwritten by the owning question's sortDirection (all
other fields preserved); every node of a walked subtree either carries
the question's sortDirection or is an untouched node of the parent-id
multimap (the skipped disabled children and the children of early-stopped
nodes); and each subtree the root loop attaches to the combined root
keeps the root query node itself unmodified while all its direct children
are walked and therefore carry the resolved question's sortDirection. -/
theorem claim_C2_amended (a : CDC.Answer) (q : CDC.Question)
    (tree : List (String × List CDC.Query)) (fuel : Nat) :
    (∀ (term : CDC.Query) (st : CDC.WalkState),
      ((CDC.walkTree a q tree fuel term st).1).val =
        { term with sortDirection := some q.sortDirection }) ∧
    (∀ (term : CDC.Query) (st : CDC.WalkState),
      ∀ s ∈ CDC.QTree.subtrees (CDC.walkTree a q tree fuel term st).1,
        s.val.sortDirection = some q.sortDirection ∨ s.val ∈ multiValues tree) ∧
    (∀ (qm : List (String × CDC.Question)) (am : List (String × CDC.Answer))
        (rqs : List CDC.Query) (acc : List CDC.QTree × CDC.WalkState) (t : CDC.QTree),
      t ∈ (CDC.rootLoop qm am tree fuel rqs acc).1 →
        t ∈ acc.1 ∨ ∃ rq ∈ rqs, t.val = rq ∧
          ∃ aq, CDC.resolveAnswerQuestion qm am rq = some aq ∧
            ∀ c ∈ CDC.QTree.children t, c.val.sortDirection = some aq.2.sortDirection) :=
  ⟨fun term st => CDC.walkTree_fst_val a q tree fuel term st,
   fun term st => CDC.walkTree_subtree_sort a q tree fuel term st,
   fun qm am rqs acc t ht => CDC.rootLoop_roots qm am tree fuel rqs acc t ht⟩

/-- Claim C2 witness: walking the concrete term overwrites its authored
Descending sortDirection with the question's Ascending one. -/
theorem claim_C2_witness :
    ((CDC.walkTree Ex.ans1 Ex.q1 [] 1 Ex.termT CDC.emptyWalkState).1).val =
      { Ex.termT with sortDirection := some Ex.q1.sortDirection } :=
  (claim_C2_amended Ex.ans1 Ex.q1 [] 1).1 Ex.termT CDC.emptyWalkState

/-- Claim C3: evaluation at the failing input.  For the tree nesting term
"c" directly inside term "p", the container does record the outer term in
the nested-term list, but getParentTerm looks the stored nodes up by
their OWN id: the enclosing term of "c" comes back as none, and asking
for "p" returns the node "p" itself. -/
theorem claim_C3_nested_lookup :
    (QTC.mkContainer (some Ex.outerQ)).termsByNestedTerm = [Ex.outerQ] ∧
    QTC.getParentTerm (QTC.mkContainer (some Ex.outerQ)) Ex.innerQ.id = none ∧
    QTC.getParentTerm (QTC.mkContainer (some Ex.outerQ)) Ex.outerQ.id = some Ex.outerQ :=
  ⟨rfl, rfl, rfl⟩

/-- Claim C4 counterexample: a disabled node with a truthy category and a
child in the parent index is visited by the walk (walkTree is invoked on
it) but receives no collected-children entry: the walk stops before the
computation. -/
theorem claim_C4_counterexample :
    Ex.termD.disabled = true ∧
    CDC.categoryTruthy Ex.termD.category = true ∧
    lookupMulti [("d", [Ex.termT])] Ex.termD.id = [Ex.termT] ∧
    (CDC.walkTree Ex.ans1 Ex.q1 [("d", [Ex.termT])] 5 Ex.termD
      CDC.emptyWalkState).2.collectedChildrenMap = [] :=
  ⟨rfl, rfl, rfl, rfl⟩

/-- Claim C4 (amended): a node visited by the walk that is not disabled,
has at least one child in the parent index, and whose category is truthy
(present and not the zero-valued Demographic member) receives a
collected-children entry under its id equal to "some direct child has
collect = true" (disabled children included); a visited node that is
disabled or childless leaves the collected-children map untouched. -/
theorem claim_C4_amended (a : CDC.Answer) (q : CDC.Question)
    (tree : List (String × List CDC.Query)) (fuel : Nat) (term : CDC.Query)
    (st : CDC.WalkState) :
    (term.disabled = false → lookupMulti tree term.id ≠ [] →
        CDC.categoryTruthy term.category = true →
      lookupMap (CDC.walkTree a q tree fuel term st).2.collectedChildrenMap term.id =
        some ((lookupMulti tree term.id).any fun c => c.collect)) ∧
    (term.disabled = true ∨ lookupMulti tree term.id = [] →
      (CDC.walkTree a q tree fuel term st).2.collectedChildrenMap =
        st.collectedChildrenMap) :=
  ⟨fun h1 h2 h3 => CDC.walkTree_collected_set a q tree fuel term st h1 h2 h3,
   fun h => CDC.walkTree_collected_skip a q tree fuel term st h⟩

/-- Claim C4 witness: the enabled category node "t" with the single child
"d" (collect = true) receives the entry some true. -/
theorem claim_C4_witness :
    lookupMap (CDC.walkTree Ex.ans1 Ex.q1 [("t", [Ex.termD])] 3 Ex.termT
        CDC.emptyWalkState).2.collectedChildrenMap Ex.termT.id =
      some ((lookupMulti [("t", [Ex.termD])] Ex.termT.id).any fun c => c.collect) :=
  (claim_C4_amended Ex.ans1 Ex.q1 [("t", [Ex.termD])] 3 Ex.termT
    CDC.emptyWalkState).1 rfl (by decide) rfl

/-- Claim C5 counterexample: the disabled node "d" sits in the combined
tree (as child of the walked term "t") yet is registered in neither the
term→answer map nor the answer→terms map: the recursive child loop skips
a disabled child before registration. -/
theorem claim_C5_counterexample :
    Ex.result.combinedQuery = some Ex.expectedTree ∧
    (∃ s ∈ CDC.QTree.subtrees Ex.expectedTree, s.val = Ex.termD) ∧
    Ex.termD.disabled = true ∧
    lookupMap Ex.result.termToAnswerMap Ex.termD.id = none ∧
    Ex.result.answerToTermsMap =
      [("a1", [{ Ex.termT with sortDirection := some CDC.SortDirection.Ascending }])] := by
  refine ⟨rfl, ⟨CDC.QTree.node Ex.termD [], ?_, rfl⟩, rfl, rfl, rfl⟩
  simp [Ex.expectedTree, CDC.QTree.subtrees, CDC.subtreesList]

/-- Claim C5 (amended): a disabled node on which walkTree is invoked is
registered in the term→answer and answer→terms maps and nothing else
happens in that call (its descendants stay unvisited and unregistered,
and its children are attached untouched); a disabled node encountered as
a child during the recursive child loop is skipped entirely: the walk
state is the same as if the disabled children were absent. -/
theorem claim_C5_amended (a : CDC.Answer) (q : CDC.Question)
    (tree : List (String × List CDC.Query)) (fuel : Nat) :
    (∀ (term : CDC.Query) (st : CDC.WalkState), term.disabled = true →
      CDC.walkTree a q tree fuel term st =
        (CDC.QTree.node { term with sortDirection := some q.sortDirection }
          ((lookupMulti tree term.id).map fun c => CDC.QTree.node c []),
         { st with
            termToAnswerMap := assocSet st.termToAnswerMap term.id a
            answerToTermsMap := addOneToMultiMap st.answerToTermsMap a.id
              { term with sortDirection := some q.sortDirection } })) ∧
    (∀ (cs : List CDC.Query) (st : CDC.WalkState),
      (CDC.walkSubQueries (CDC.walkTree a q tree fuel) cs st).2 =
        (CDC.walkSubQueries (CDC.walkTree a q tree fuel)
          (cs.filter fun c => !c.disabled) st).2) :=
  ⟨fun term st hd => CDC.walkTree_disabled a q tree fuel term st hd,
   fun cs st => CDC.walkSubQueries_skips_disabled _ cs st⟩

/-- Claim C5 witness: invoking walkTree on the disabled node "d" registers
exactly that node in both maps and stops. -/
theorem claim_C5_witness :
    CDC.walkTree Ex.ans1 Ex.q1 [] 2 Ex.termD CDC.emptyWalkState =
      (CDC.QTree.node { Ex.termD with sortDirection := some Ex.q1.sortDirection }
        ((lookupMulti [] Ex.termD.id).map fun c => CDC.QTree.node c []),
       { CDC.emptyWalkState with
          termToAnswerMap :=
            assocSet CDC.emptyWalkState.termToAnswerMap Ex.termD.id Ex.ans1
          answerToTermsMap :=
            addOneToMultiMap CDC.emptyWalkState.answerToTermsMap Ex.ans1.id
              { Ex.termD with sortDirection := some Ex.q1.sortDirection } }) :=
  (claim_C5_amended Ex.ans1 Ex.q1 [] 2).1 Ex.termD CDC.emptyWalkState rfl

/-- Claim C6: when the computed root set is empty, getDataCollectorQuery
returns an undefined combined tree, the empty index maps, an empty term
list, an empty term map, and the repository is never consulted: the
result does not depend on it at all. -/
theorem claim_C6_empty_root_set (sm : List (String × CDC.Section))
    (qm : List (String × CDC.Question)) (am : List (String × CDC.Answer))
    (repo : List CDC.Query → List CDC.Query)
    (h : CDC.rootQueriesOf qm am = []) :
    CDC.getDataCollectorQuery sm qm am repo =
      { combinedQuery := none, answerToTermsMap := [], termToAnswerMap := [],
        answerMap := am, terms := [], termMap := [],
        collectedChildrenMap := [], sectionMap := sm } ∧
    ∀ repo2, CDC.getDataCollectorQuery sm qm am repo =
      CDC.getDataCollectorQuery sm qm am repo2 := by
  have h1 : ∀ r : List CDC.Query → List CDC.Query,
      CDC.getDataCollectorQuery sm qm am r =
        { combinedQuery := none, answerToTermsMap := [], termToAnswerMap := [],
          answerMap := am, terms := [], termMap := [],
          collectedChildrenMap := [], sectionMap := sm } := by
    intro r
    unfold CDC.getDataCollectorQuery
    simp [h]
  exact ⟨h1 repo, fun repo2 => (h1 repo).trans (h1 repo2).symm⟩

/-- Claim C6 witness: a project without answers yields the empty result. -/
theorem claim_C6_witness :
    CDC.getDataCollectorQuery [] [] [] Ex.nilRepo =
      { combinedQuery := none, answerToTermsMap := [], termToAnswerMap := [],
        answerMap := [], terms := [], termMap := [],
        collectedChildrenMap := [], sectionMap := [] } :=
  (claim_C6_empty_root_set [] [] [] Ex.nilRepo rfl).1

/-- Claim C7 counterexample: a node with an empty id but a non-empty
category is classified neither as a term (as the claim demands) nor as a
group. -/
theorem claim_C7_counterexample :
    QTC.catTruthy Ex.anonQ.category = true ∧
    (QTC.mkContainer (some Ex.anonQ)).terms = [] ∧
    (QTC.mkContainer (some Ex.anonQ)).groups = [] :=
  ⟨rfl, rfl, rfl⟩

/-- Claim C7 (amended): among the visited nodes with a NON-EMPTY ID, a
node with a non-empty category is a term and any other node is a group
(empty-id nodes are classified into neither list); such a term is a
parent term if and only if it is not disabled and its parent is absent,
or carries an empty id, or is not itself a term. -/
theorem claim_C7_amended (root : Option QTC.Query) (x : QTC.Query) :
    (x ∈ (QTC.mkContainer root).terms ↔
      ∃ p, (x, p) ∈ QTC.pairsOf root ∧ QTC.idTruthy x = true ∧
        QTC.catTruthy x.category = true) ∧
    (x ∈ (QTC.mkContainer root).groups ↔
      ∃ p, (x, p) ∈ QTC.pairsOf root ∧ QTC.idTruthy x = true ∧
        QTC.catTruthy x.category = false) ∧
    (x ∈ (QTC.mkContainer root).parentTerms ↔
      ∃ p, (x, p) ∈ QTC.pairsOf root ∧ QTC.idTruthy x = true ∧
        QTC.catTruthy x.category = true ∧ QTC.termParent p = none ∧
        x.disabled = false) := by
  refine ⟨?_, ?_, ?_⟩
  · rw [QTC.mkContainer_terms]; exact QTC.mem_classTerms _ x
  · rw [QTC.mkContainer_groups]; exact QTC.mem_classGroups _ x
  · rw [QTC.mkContainer_parentTerms]; exact QTC.mem_classParentTerms _ x

/-- Claim C7 witness: the nested term "c" of the concrete example is
classified as a term. -/
theorem claim_C7_witness : Ex.innerQ ∈ (QTC.mkContainer (some Ex.outerQ)).terms :=
  (claim_C7_amended (some Ex.outerQ) Ex.innerQ).1.mpr
    ⟨some Ex.outerQ,
      by rw [show QTC.pairsOf (some Ex.outerQ) =
          [(Ex.outerQ, none), (Ex.innerQ, some Ex.outerQ)] from rfl]
         exact List.mem_cons_of_mem _ (List.mem_cons_self _ _),
      rfl, rfl⟩

/-- Claim C8 counterexample: two distinct returned nodes with the same id
and a resolvable parent id; the id→node lookup map keeps only the later
one, so it does not contain exactly the resolvable returned nodes. -/
theorem claim_C8_counterexample :
    CDC.parentResolvable Ex.dupA = true ∧
    Ex.dupA ∈ [Ex.dupA, Ex.dupB] ∧
    Ex.dupA ∉ mapValues (CDC.buildQueryTree [Ex.dupA, Ex.dupB]).2 := by
  refine ⟨rfl, by simp, ?_⟩
  decide

/-- Claim C8 (amended): the maps built from the returned nodes are the
same as the maps built from only the nodes with a resolvable parent id
(orphans are silently skipped and never cause a failure); the multimap
contains exactly the resolvable returned nodes; the id→node map has a key
exactly for each resolvable node's id, and every lookup result is a
resolvable returned node carrying the looked-up id (a later duplicate id
overwrites an earlier one). -/
theorem claim_C8_amended (terms : List CDC.Query) :
    (CDC.buildQueryTree terms =
      CDC.buildQueryTree (terms.filter CDC.parentResolvable)) ∧
    (∀ x, x ∈ multiValues (CDC.buildQueryTree terms).1 ↔
      (x ∈ terms ∧ CDC.parentResolvable x = true)) ∧
    (∀ k, containsKey (CDC.buildQueryTree terms).2 k = true ↔
      ∃ t ∈ terms, CDC.parentResolvable t = true ∧ t.id = k) ∧
    (∀ k t, lookupMap (CDC.buildQueryTree terms).2 k = some t →
      t ∈ terms ∧ CDC.parentResolvable t = true ∧ t.id = k) := by
  refine ⟨?_, ?_, ?_, ?_⟩
  · unfold CDC.buildQueryTree
    exact CDC.buildQueryTreeGo_filter terms [] []
  · intro x
    have h := CDC.mem_multiValues_buildGo terms [] [] x
    simpa [CDC.buildQueryTree, multiValues] using h
  · intro k
    have h := CDC.containsKey_buildGo_snd terms [] [] k
    simpa [CDC.buildQueryTree, containsKey, lookupMap] using h
  · intro k t h
    rcases CDC.lookupMap_buildGo_snd terms [] [] k t
        (by simpa [CDC.buildQueryTree] using h) with h1 | h1
    · simp [lookupMap] at h1
    · exact h1

/-- Claim C8 witness: the single node "t" with parent "r" is stored under
its id and found again. -/
theorem claim_C8_witness :
    Ex.termT ∈ [Ex.termT] ∧ CDC.parentResolvable Ex.termT = true ∧ Ex.termT.id = "t" :=
  (claim_C8_amended [Ex.termT]).2.2.2 ("t") Ex.termT rfl

/-- Claim C9: constructing the container twice from the same tree yields
the same container, and each classification list equals the corresponding
filter of the deterministic pre-order visit of the tree, which fixes the
lists element for element and in order. -/
theorem claim_C9_idempotent (root : Option QTC.Query) :
    (QTC.mkContainer root = QTC.mkContainer root) ∧
    (QTC.mkContainer root).terms = QTC.classTerms (QTC.pairsOf root) ∧
    (QTC.mkContainer root).groups = QTC.classGroups (QTC.pairsOf root) ∧
    (QTC.mkContainer root).parentTerms = QTC.classParentTerms (QTC.pairsOf root) ∧
    (QTC.mkContainer root).termsByNestedTerm = QTC.classNested (QTC.pairsOf root) :=
  ⟨rfl, QTC.mkContainer_terms root, QTC.mkContainer_groups root,
    QTC.mkContainer_parentTerms root, QTC.mkContainer_nested root⟩

/-- Claim C10: a visited node with an absent or empty id is classified
into none of the four lists, yet its children are still traversed (each
child is visited with the node as its parent, and is classified by the
same rules as every other visited node). -/
theorem claim_C10_unclassified (root : Option QTC.Query) (n : QTC.Query)
    (p : Option QTC.Query) (hmem : (n, p) ∈ QTC.pairsOf root)
    (hid : QTC.idTruthy n = false) :
    n ∉ (QTC.mkContainer root).terms ∧
    n ∉ (QTC.mkContainer root).groups ∧
    n ∉ (QTC.mkContainer root).parentTerms ∧
    n ∉ (QTC.mkContainer root).termsByNestedTerm ∧
    ∀ c ∈ n.groups, (c, some n) ∈ QTC.pairsOf root := by
  refine ⟨?_, ?_, ?_, ?_, fun c hc => QTC.pairsOf_children root n p hmem c hc⟩
  · rw [QTC.mkContainer_terms]
    intro hx
    rcases (QTC.mem_classTerms _ n).mp hx with ⟨p2, _, h1, _⟩
    rw [hid] at h1; cases h1
  · rw [QTC.mkContainer_groups]
    intro hx
    rcases (QTC.mem_classGroups _ n).mp hx with ⟨p2, _, h1, _⟩
    rw [hid] at h1; cases h1
  · rw [QTC.mkContainer_parentTerms]
    intro hx
    rcases (QTC.mem_classParentTerms _ n).mp hx with ⟨p2, _, h1, _⟩
    rw [hid] at h1; cases h1
  · rw [QTC.mkContainer_nested]
    intro hx
    rcases (QTC.mem_classNested _ n).mp hx with ⟨n2, p2, _, _, _, hTP⟩
    rcases QTC.termParent_some p2 n hTP with ⟨_, h1, _⟩
    rw [hid] at h1; cases h1

/-- Claim C10 witness: the concrete empty-id node is not classified as a
term. -/
theorem claim_C10_witness : Ex.anonQ ∉ (QTC.mkContainer (some Ex.anonQ)).terms :=
  (claim_C10_unclassified (some Ex.anonQ) Ex.anonQ none
    (by rw [show QTC.pairsOf (some Ex.anonQ) = [(Ex.anonQ, none)] from rfl]
        exact List.mem_cons_self _ _) rfl).1
